import Mathlib

/-!
# Verification of the meal-recommendation agent (`meal-agent`)

A shallow embedding, in Lean 4, of the core of the Go repository
`agen-Intelligent-catering-recommendation-system`: the candidate weighting and
ranking pipeline (`agent.GetRecommendation`, `tools/restaurant.go`), the
recency-penalty derivation (`memory/history.go`), the preference lookups
(`preference` package), the conversational dispatch (`agent.Chat`,
`extractSelection`, `confirmChoice`) and the scheduler trigger
(`agent/scheduler.go`).

Modelling conventions:
* Go `string` becomes `String`; `strings.Contains` is re-implemented over
  character lists (`strContains`).
* Go `int` becomes `Int`; Go's integer division truncates toward zero, which is
  `Int.tdiv` (written explicitly throughout).
* Go `map[string]int` values become association lists (`alGet?`/`alSet`); the
  category-preference map is iterated in list order (Go's map iteration order
  is unspecified; the list order fixes one such order).
* Calendar dates (`"2006-01-02"` strings) are abstracted to integer day
  numbers; a record's `date` is `Option Int`, with `none` standing for an
  empty or unparseable date string (which `history.go` skips after a failed
  `time.Parse`).
* External collaborators (weather provider, places provider, language model,
  file system) enter as explicit `Except`/function parameters; the pipeline's
  observable outcome is the `RecResult` value it produces *before* any
  language-model call, so "the model was never invoked" is visible as the
  constructor of the result.
-/

/-! ## Go `strings.Contains` over character lists -/

/-- `prefixChars p l` is true when `p` is a prefix of the character list `l`. -/
def prefixChars : List Char → List Char → Bool
  | [], _ => true
  | _ :: _, [] => false
  | a :: as, b :: bs => a == b && prefixChars as bs

/-- `containsChars sub l`: `sub` occurs as a contiguous run inside `l`
(the empty list occurs in everything), mirroring Go `strings.Contains`. -/
def containsChars (sub : List Char) : List Char → Bool
  | [] => sub.isEmpty
  | c :: rest => prefixChars sub (c :: rest) || containsChars sub rest

/-- Go `strings.Contains s sub`. -/
def strContains (s sub : String) : Bool :=
  containsChars sub.toList s.toList

/-! ## Association lists standing for Go `map[string]int` -/

/-- Map lookup (`v, ok := m[k]`). -/
def alGet? : List (String × Int) → String → Option Int
  | [], _ => none
  | (k, v) :: rest, n => if k = n then some v else alGet? rest n

/-- Map update (`m[k] = v`). -/
def alSet : List (String × Int) → String → Int → List (String × Int)
  | [], n, v => [(n, v)]
  | (k, w) :: rest, n, v => if k = n then (n, v) :: rest else (k, w) :: alSet rest n v

/-! ## Data model -/

/-- `tools.Restaurant`.  The Go field `Type` is rendered `rtype`.  `weight` is
the derived ranking weight (`Weight int` in Go, zero until computed). -/
structure Restaurant where
  name : String
  rtype : String
  address : String
  distance : String
  rating : String
  cost : String
  tel : String
  weight : Int
deriving DecidableEq

/-- `memory.MealRecord`; `date` is the abstracted calendar day
(`none` = empty/unparseable date string). -/
structure MealRecord where
  date : Option Int
  mealType : String
  restaurant : String
  category : String
  rating : Int
  note : String
deriving DecidableEq

/-- `preference.Preferences`, reduced to its two lookup indexes
(`restaurantMap`, `categoryMap`); the YAML list fields only feed these. -/
structure Preferences where
  restaurantMap : List (String × Int)
  categoryMap : List (String × Int)
deriving DecidableEq

/-- `tools.WeatherInfo`. -/
structure WeatherInfo where
  temp : String
  feelsLike : String
  text : String
  windDir : String
  windScale : String
  humidity : String
deriving DecidableEq

/-- `agent.Message`. -/
structure Message where
  role : String
  content : String
deriving DecidableEq

/-- The engine-relevant part of `config.Config`: the static blacklist and the
config-level temporary exclusions (`cfg.Blacklist`, `cfg.TempExclude`). -/
structure Config where
  blacklist : List String
  tempExclude : List String
deriving DecidableEq

/-- The conversation state owned by `agent.MealAgent`
(`messages`, `tempExclude`, `lastRestaurants`). -/
structure AgentState where
  messages : List Message
  tempExclude : List String
  lastRestaurants : List Restaurant
deriving DecidableEq

/-! ## Preference lookups (`preference` package) -/

/-- `Preferences.GetRestaurantWeight`: the name-exact weight, 100 when the
name has no entry. -/
def GetRestaurantWeight (p : Preferences) (name : String) : Int :=
  match alGet? p.restaurantMap name with
  | some w => w
  | none => 100

/-- `Preferences.GetCategoryWeight`: the weight of the first category key that
occurs as a substring of the provider type string, 100 when none matches. -/
def GetCategoryWeight (p : Preferences) (typeStr : String) : Int :=
  match p.categoryMap.find? (fun c => strContains typeStr c.1) with
  | some c => c.2
  | none => 100

/-! ## Recency penalties (`memory/history.go`) -/

/-- The penalty switch in `GetAllPenalties`/`GetRecentPenalty`:
0 days ago → −80, 1 → −50, 2 → −30, 3 → −15, anything else → 0
(the Go `switch` leaves `penalty` at its zero value for other diffs). -/
def penaltyFor (daysDiff : Int) : Int :=
  if daysDiff = 0 then -80
  else if daysDiff = 1 then -50
  else if daysDiff = 2 then -30
  else if daysDiff = 3 then -15
  else 0

/-- The body of the `for _, r := range h.Records` loop in
`History.GetAllPenalties`, acting on the accumulated map. -/
def penaltyStep (today : Int) (pens : List (String × Int)) (r : MealRecord) :
    List (String × Int) :=
  match r.date with
  | none => pens
  | some d =>
    let daysDiff := today - d
    if daysDiff > 3 then pens
    else
      let penalty := penaltyFor daysDiff
      match alGet? pens r.restaurant with
      | none => alSet pens r.restaurant penalty
      | some existing =>
        if penalty < existing then alSet pens r.restaurant penalty else pens

/-- `History.GetAllPenalties`: fold the penalty switch over every record,
keeping for each restaurant the most negative qualifying penalty. -/
def GetAllPenalties (records : List MealRecord) (today : Int) :
    List (String × Int) :=
  records.foldl (penaltyStep today) []

/-- How `GetRecommendation` consumes the table:
`if penalty, ok := penalties[name]; ok { weight += penalty }` — i.e. the
effective penalty of an absent name is 0. -/
def effectivePenalty (pens : List (String × Int)) (name : String) : Int :=
  match alGet? pens name with
  | some p => p
  | none => 0

/-- Modelled from the spec's words (for comparison with the code): the most
negative penalty among the restaurant's records dated within the trailing
3 days — a record `d` days old contributing −80, −50, −30, −15 for
`d = 0, 1, 2, 3` — and 0 when no record falls in that window. -/
def specRecencyPenalty (records : List MealRecord) (today : Int)
    (name : String) : Int :=
  (records.filterMap (fun r =>
    match r.date with
    | none => none
    | some d =>
      if r.restaurant = name ∧ 0 ≤ today - d ∧ today - d ≤ 3 then
        some (penaltyFor (today - d))
      else none)).foldl min 0

/-- One record's contribution to `name`'s map entry in `GetAllPenalties`: the
switch value for every record with `daysDiff ≤ 3` (including future-dated
records, for which the switch leaves 0), `none` when skipped. -/
def contrib (today : Int) (name : String) (r : MealRecord) : Option Int :=
  match r.date with
  | none => none
  | some d =>
    if r.restaurant = name ∧ today - d ≤ 3 then some (penaltyFor (today - d))
    else none

/-- The contributions the code folds in for `name`, in record order. -/
def codeContribs (records : List MealRecord) (today : Int) (name : String) :
    List Int :=
  records.filterMap (contrib today name)

/-- Folding `min` over a contribution list, starting from an optional
current map entry. -/
def minFold (o : Option Int) (l : List Int) : Option Int :=
  l.foldl (fun acc p =>
    match acc with
    | none => some p
    | some e => some (min e p)) o

/-! ## Weight calculation (loop body of `agent.GetRecommendation`, step 5) -/

/-- The per-candidate weight computation in `GetRecommendation`:
base 100; with preferences, the name-exact weight (0 forcing 0), scaled via
`weight * catWeight / 100` (Go truncating division) when the category weight
is not 100; finally the recency penalty is added when the table has an entry
for the candidate's name. -/
def computeWeight (pref : Option Preferences) (penalties : List (String × Int))
    (r : Restaurant) : Int :=
  let weightBase : Int := 100
  let weightPref :=
    match pref with
    | none => weightBase
    | some p =>
      let prefWeight := GetRestaurantWeight p r.name
      let w := if prefWeight = 0 then 0 else prefWeight
      let catWeight := GetCategoryWeight p r.rtype
      if catWeight ≠ 100 then Int.tdiv (w * catWeight) 100 else w
  match alGet? penalties r.name with
  | some penalty => weightPref + penalty
  | none => weightPref

/-! ## Filters and sort (`tools/restaurant.go`) -/

/-- `tools.FilterByBlacklist`: drop candidates whose name exactly matches a
blacklist entry. -/
def FilterByBlacklist (restaurants : List Restaurant) (blacklist : List String) :
    List Restaurant :=
  restaurants.filter (fun r => decide (r.name ∉ blacklist))

/-- `tools.FilterByType`: drop candidates whose type or name contains any
excluded keyword as a substring. -/
def FilterByType (restaurants : List Restaurant) (excludeTypes : List String) :
    List Restaurant :=
  restaurants.filter
    (fun r => !(excludeTypes.any (fun t => strContains r.rtype t || strContains r.name t)))

/-- `tools.FilterByWeight`: keep only candidates with weight > 0. -/
def FilterByWeight (restaurants : List Restaurant) : List Restaurant :=
  restaurants.filter (fun r => decide (0 < r.weight))

/-- The inner `for j` loop of `tools.SortByWeight` starting from the element
at position `i` (`h`): returns the element left at position `i` after the pass
and the suffix it leaves behind.  Whenever `r[j].Weight > r[i].Weight` the two
are exchanged, so the displaced leader drops into position `j`. -/
def sortPass (h : Restaurant) : List Restaurant → Restaurant × List Restaurant
  | [] => (h, [])
  | y :: ys =>
    if h.weight < y.weight then
      ((sortPass y ys).1, h :: (sortPass y ys).2)
    else
      ((sortPass h ys).1, y :: (sortPass h ys).2)

/-- The outer `for i` loop of `tools.SortByWeight`, fuelled by the list length
(each outer iteration fixes one position, so `n = length` fuel is exact). -/
def sortAux : Nat → List Restaurant → List Restaurant
  | 0, _ => []
  | _ + 1, [] => []
  | n + 1, x :: xs => (sortPass x xs).1 :: sortAux n (sortPass x xs).2

/-- `tools.SortByWeight`: exchange sort, highest weight first. -/
def SortByWeight (restaurants : List Restaurant) : List Restaurant :=
  sortAux restaurants.length restaurants

/-- Modelled from the spec's words, for comparison with the code: insert `x`
(an element earlier in the input than everything already placed) in front of
the first element with strictly smaller weight, so equal weights retain input
order. -/
def insertDescStable (x : Restaurant) : List Restaurant → List Restaurant
  | [] => [x]
  | y :: ys => if y.weight > x.weight then y :: insertDescStable x ys else x :: y :: ys

/-- Modelled from the spec's words: the stable descending-by-weight sort the
spec requires ("sort by weight descending; ties retain relative input
order"). -/
def stableSortByWeight (restaurants : List Restaurant) : List Restaurant :=
  restaurants.foldr insertDescStable []

/-- Input exhibiting the instability of `SortByWeight`: two weight-5
candidates followed by a weight-9 one. -/
def exA3 : Restaurant := ⟨"甲馆", "", "", "", "", "", "", 5⟩

def exB3 : Restaurant := ⟨"乙馆", "", "", "", "", "", "", 5⟩

def exC3 : Restaurant := ⟨"丙馆", "", "", "", "", "", "", 9⟩

def prefC1 : Preferences := ⟨[("小面馆", 150)], [("川菜", 120)]⟩

def restC1 : Restaurant := ⟨"小面馆", "餐饮服务;中餐厅;川菜", "", "", "", "", "", 0⟩

def recordsC1 : List MealRecord := [⟨some 49, "lunch", "小面馆", "川菜", 0, ""⟩]

def prefC2 : Preferences := ⟨[("苍蝇馆", 0)], [("火锅", 120)]⟩

def restC2 : Restaurant := ⟨"苍蝇馆", "餐饮服务;中餐厅;火锅", "", "", "", "", "", 0⟩

def recordsC2 : List MealRecord := [⟨some 100, "lunch", "苍蝇馆", "火锅", 0, ""⟩]

/-! ## Conversational dispatch (`agent.Chat` and helpers) -/

/-- The keyword table of `agent.isConfirmation`. -/
def confirmKeywords : List String :=
  ["就这个", "就吃", "好的", "确定", "就它", "选这个", "第一个", "第二个", "第三个"]

/-- `agent.isConfirmation`: any confirmation keyword occurs in the input. -/
def isConfirmation (input : String) : Bool :=
  confirmKeywords.any (fun kw => strContains input kw)

/-- The exclusion-intent test at the top of `agent.Chat`. -/
def hasExclusionIntent (input : String) : Bool :=
  strContains input "不想吃" || strContains input "不要" ||
    strContains input "不吃" || strContains input "换一个"

/-- The fixed food vocabulary of `agent.parseExclusion`. -/
def foodKeywords : List String :=
  ["火锅", "川菜", "湘菜", "烧烤", "日料", "韩餐", "西餐",
   "面", "米饭", "快餐", "麻辣", "清淡", "油腻",
   "粤菜", "东北菜", "本帮菜", "鲁菜", "徽菜",
   "披萨", "汉堡", "炸鸡", "烤肉", "寿司", "拉面",
   "饺子", "包子", "小吃", "甜品", "奶茶"]

/-- `agent.parseExclusion`: append every vocabulary keyword found in the input
and not already excluded (the membership check runs against the growing
list). -/
def parseExclusion (input : String) (tempExclude : List String) : List String :=
  foodKeywords.foldl
    (fun te kw => if strContains input kw && !(te.contains kw) then te ++ [kw] else te)
    tempExclude

/-- The recommendation-request test in `agent.Chat`. -/
def isRecommendRequest (input : String) : Bool :=
  strContains input "推荐" || strContains input "吃什么" || strContains input "有什么"

/-- Which continuation `agent.Chat` takes after the exclusion check:
`confirmChoice`, `GetRecommendation`, or the plain language-model fallback. -/
inductive ChatAction where
  | confirm
  | recommend
  | llmFallback
deriving DecidableEq

/-- The dispatch structure of `agent.Chat`: parse exclusions first (without
returning), then branch on confirmation, then on recommendation request, else
fall through to the language model. -/
def chatDispatch (input : String) (tempExclude : List String) :
    List String × ChatAction :=
  let te := if hasExclusionIntent input then parseExclusion input tempExclude
            else tempExclude
  if isConfirmation input then (te, ChatAction.confirm)
  else if isRecommendRequest input then (te, ChatAction.recommend)
  else (te, ChatAction.llmFallback)

/-- The ordinal table of `agent.extractSelection`. -/
def orderPatterns : List (String × Nat) :=
  [("第一", 0), ("1号", 0), ("第1", 0),
   ("第二", 1), ("2号", 1), ("第2", 1),
   ("第三", 2), ("3号", 2), ("第3", 2)]

/-- `agent.extractSelection`: ordinal phrase first, then name substring, then
the bare-confirmation default — which the code guards only with
`len(lastRestaurants) > 0`. -/
def extractSelection (input : String) (lastRestaurants : List Restaurant) :
    Option Restaurant :=
  if lastRestaurants.length = 0 then none
  else
    match orderPatterns.find?
        (fun p => strContains input p.1 && decide (p.2 < lastRestaurants.length)) with
    | some p => lastRestaurants[p.2]?
    | none =>
      match lastRestaurants.find? (fun r => strContains input r.name) with
      | some r => some r
      | none =>
        if decide (0 < lastRestaurants.length) &&
            (strContains input "就这个" || strContains input "就它" ||
              strContains input "好的") then
          lastRestaurants[0]?
        else none

/-- `strings.Split` on a one-character separator, over character lists
(kernel-reducible, unlike `String.splitOn`). -/
def splitChar (sep : Char) : List Char → List (List Char)
  | [] => [[]]
  | c :: rest =>
    if c = sep then [] :: splitChar sep rest
    else
      match splitChar sep rest with
      | [] => [[c]]
      | g :: gs => (c :: g) :: gs

/-- `agent.extractCategory`: the third (else second, else whole) segment of
the provider's `;`-separated type string. -/
def extractCategory (typeStr : String) : String :=
  let parts := (splitChar ';' typeStr.toList).map (fun l => String.mk l)
  if 3 ≤ parts.length then parts.getD 2 typeStr
  else if 2 ≤ parts.length then parts.getD 1 typeStr
  else typeStr

/-- The lunch/dinner name map used in `confirmChoice`/`buildPrompt`
(`map[string]string{"lunch": "午餐", "dinner": "晚餐"}[mealType]`, empty for
other keys). -/
def mealName (mealType : String) : String :=
  if mealType = "lunch" then "午餐" else if mealType = "dinner" then "晚餐" else ""

/-- The occasion rule used throughout the agent: hour < 15 → lunch, else
dinner. -/
def occasionForHour (hour : Nat) : String :=
  if hour ≥ 15 then "dinner" else "lunch"

/-- `agent.confirmChoice`, with the wall clock (`hour`, `today`) passed in and
the history as a record list: returns the reply text and the new history.
(The persistence write of `History.Add` is modelled separately in `Add`; here
only the in-memory append matters.) -/
def confirmChoice (input : String) (lastRestaurants : List Restaurant)
    (records : List MealRecord) (today : Int) (hour : Nat) :
    String × List MealRecord :=
  match extractSelection input lastRestaurants with
  | none =>
    ("请告诉我你选择哪个餐厅，可以说餐厅名称或者「第一个」「第二个」等", records)
  | some r =>
    let mealType := occasionForHour hour
    let newRecords := records ++
      [⟨some today, mealType, r.name, extractCategory r.rtype, 0, ""⟩]
    ("好的，已记录本次" ++ mealName mealType ++ "选择：" ++ r.name ++
      "。下次会避免重复推荐。祝用餐愉快！🍽️", newRecords)

/-! ## Weather rendering (`tools/weather.go`) -/

/-- `fmt.Sscanf(s, "%d", &temp)`: an optional sign followed by leading digits;
`temp` keeps its zero value when nothing parses. -/
def parseLeadingInt (s : String) : Int :=
  let chars := s.toList
  let signed : Bool × List Char :=
    match chars with
    | '-' :: cs => (true, cs)
    | '+' :: cs => (false, cs)
    | cs => (false, cs)
  let digits := signed.2.takeWhile Char.isDigit
  if digits.isEmpty then 0
  else
    let n : Nat := digits.foldl (fun a c => a * 10 + (c.toNat - '0'.toNat)) 0
    if signed.1 then -(n : Int) else (n : Int)

/-- `WeatherInfo.Describe`. -/
def weatherDescribe (w : WeatherInfo) : String :=
  "当前天气：" ++ w.text ++ "，温度 " ++ w.temp ++ "°C，体感温度 " ++
    w.feelsLike ++ "°C，" ++ w.windDir ++ " " ++ w.windScale ++ "级，湿度 " ++
    w.humidity ++ "%"

/-- `WeatherInfo.SuggestFoodType`: the fixed temperature-bracket rule table. -/
def suggestFoodType (w : WeatherInfo) : String :=
  let temp := parseLeadingInt w.temp
  if temp ≤ 5 then "天气寒冷，推荐热汤、火锅、羊肉等暖身食物"
  else if temp ≤ 15 then "天气偏凉，推荐热食、炖菜、面食等"
  else if temp ≤ 25 then "天气舒适，各类食物都适合"
  else if temp ≤ 32 then "天气炎热，推荐清淡、凉菜、冷面等解暑食物"
  else "天气酷热，推荐解暑降温的食物，注意多喝水"

/-- The placeholder reading substituted when the weather provider fails
(`&tools.WeatherInfo{Text: "未知", Temp: "20"}`; other fields zero-valued). -/
def placeholderWeather : WeatherInfo := ⟨"20", "", "未知", "", "", ""⟩

/-! ## Prompt construction (`agent.buildPrompt`, `Restaurant.Describe`) -/

/-- `Restaurant.Describe`. -/
def restaurantDescribe (r : Restaurant) : String :=
  let d := r.name
  let d := if r.rtype ≠ "" then d ++ "（" ++ r.rtype ++ "）" else d
  let d := if r.distance ≠ "" then d ++ " - " ++ r.distance ++ "米" else d
  let d := if r.rating ≠ "" ∧ r.rating ≠ "[]" then d ++ " - 评分" ++ r.rating else d
  let d := if r.cost ≠ "" ∧ r.cost ≠ "[]" then d ++ " - 人均¥" ++ r.cost else d
  d

/-- The numbered candidate lines of `buildPrompt` (`%d. %s\n`, starting at
`i+1`), applied after `take 15`. -/
def restaurantLines : Nat → List Restaurant → String
  | _, [] => ""
  | i, r :: rest =>
    toString (i + 1) ++ ". " ++ restaurantDescribe r ++ "\n" ++
      restaurantLines (i + 1) rest

/-- The fixed system instruction seeded on the first call (`systemPrompt`). -/
def systemPrompt : String :=
  "你是一个贴心的饮食建议助手。你的任务是根据天气、用户位置附近的餐厅、以及用户的历史用餐记录，给出合适的用餐建议。\n\n注意事项：\n1. 根据天气推荐合适的食物类型（冷天推荐热食，热天推荐清淡）\n2. 避免连续几天推荐相同的餐厅\n3. 推荐时考虑餐厅评分和距离\n4. 如果用户说不想吃某种类型，要记住并排除\n5. 回复要简洁实用，不要太啰嗦\n6. 给出 2-3 个选择，让用户决定\n\n回复格式示例：\n根据今天的天气和你的位置，我推荐：\n1. XXX（推荐理由）\n2. YYY（推荐理由）\n3. ZZZ（推荐理由）\n\n想吃哪个？或者告诉我你不想吃什么，我再推荐。"

/-- `agent.buildPrompt`.  The history summary text (`History.Summary`) is
passed in as a string: its rendering involves formatting raw date strings that
the day-number abstraction does not carry, and no claim depends on its
content. -/
def buildPrompt (mealType : String) (weather : WeatherInfo)
    (restaurants : List Restaurant) (historySummary : String)
    (tempExclude : List String) : String :=
  let s := "现在是" ++ mealName mealType ++ "时间，请推荐用餐选择。\n\n"
  let s := s ++ "【天气信息】\n" ++ weatherDescribe weather ++ "\n" ++
    suggestFoodType weather ++ "\n\n"
  let s := s ++ "【附近餐厅】\n" ++ restaurantLines 0 (restaurants.take 15)
  let s := s ++ "\n【历史记录】\n" ++ historySummary
  let s := if tempExclude.length ≠ 0 then
      s ++ "\n【本次排除】\n" ++ "用户表示不想吃：" ++
        String.intercalate "、" tempExclude
    else s
  s ++ "\n\n请根据以上信息，推荐 3 个最合适的选择，并说明推荐理由。"

/-! ## The recommendation pipeline (`agent.GetRecommendation`) -/

/-- Steps 3-5 of `GetRecommendation`: blacklist filter (static blacklist plus
config-level temporary exclusions), session keyword filter (only when the
session exclusion set is non-empty), weight computation, weight pruning and
the exchange sort. -/
def rankedCandidates (found : List Restaurant) (cfg : Config)
    (pref : Option Preferences) (records : List MealRecord) (today : Int)
    (tempExclude : List String) : List Restaurant :=
  let allBlacklist := cfg.blacklist ++ cfg.tempExclude
  let rs := FilterByBlacklist found allBlacklist
  let rs := if 0 < tempExclude.length then FilterByType rs tempExclude else rs
  let penalties := GetAllPenalties records today
  let rs := rs.map (fun r => { r with weight := computeWeight pref penalties r })
  let rs := FilterByWeight rs
  SortByWeight rs

/-- The observable outcome of one `GetRecommendation` call, cut at the
language-model boundary: `abort` is the `return "", err` path (state
untouched), `fixedMsg` the no-candidate message returned with a nil error and
without touching state, and `llmInvoke` the point where the accumulated
message list is about to be sent to the model (the state already carries the
cached last-offered list and the appended system/user messages). -/
inductive RecResult where
  | abort (state : AgentState) (err : String)
  | fixedMsg (state : AgentState) (msg : String)
  | llmInvoke (state : AgentState)
deriving DecidableEq

/-- `agent.GetRecommendation` up to the language-model call.  The weather and
places providers enter as `Except` results; the history summary text as a
string (see `buildPrompt`). -/
def getRecommendationCore (mealType : String)
    (weather : Except String WeatherInfo)
    (search : Except String (List Restaurant)) (cfg : Config)
    (pref : Option Preferences) (records : List MealRecord) (today : Int)
    (historySummary : String) (st : AgentState) : RecResult :=
  let weatherInfo :=
    match weather with
    | Except.error _ => placeholderWeather
    | Except.ok w => w
  match search with
  | Except.error e => RecResult.abort st ("搜索餐厅失败: " ++ e)
  | Except.ok found =>
    let rs := rankedCandidates found cfg pref records today st.tempExclude
    if rs.length = 0 then
      RecResult.fixedMsg st "附近没有找到合适的餐厅，考虑扩大搜索范围或减少排除条件"
    else
      let st1 := { st with lastRestaurants := rs }
      let prompt := buildPrompt mealType weatherInfo rs historySummary st.tempExclude
      let msgs1 :=
        if st1.messages.length = 0 then st1.messages ++ [Message.mk "system" systemPrompt]
        else st1.messages
      RecResult.llmInvoke { st1 with messages := msgs1 ++ [Message.mk "user" prompt] }

/-! ## History persistence (`memory.History.Add`) -/

/-- `History.Add`, with the file write (`save`) as an explicit parameter
applied to the serialized record list: the record (dated today when its date
is unset) is appended to the in-memory list *before* the write, and the
write's outcome is returned as the call's error. -/
def History.Add (records : List MealRecord) (record : MealRecord) (today : Int)
    (write : List MealRecord → Except String Unit) :
    List MealRecord × Except String Unit :=
  let record := if record.date = none then { record with date := some today } else record
  let newRecords := records ++ [record]
  (newRecords, write newRecords)

/-! ## Scheduler trigger (`agent/scheduler.go`, `agent.Reset`) -/

/-- `MealAgent.Reset`: clear the message list, the session exclusion set and
the last-offered list. -/
def Reset (_st : AgentState) : AgentState := ⟨[], [], []⟩

/-- `Scheduler.triggerRecommendation`: reset the conversation state, then run
the pipeline (used by both the timed lunch/dinner path of `run` and
`ManualTrigger`). -/
def triggerRecommendation (mealType : String)
    (weather : Except String WeatherInfo)
    (search : Except String (List Restaurant)) (cfg : Config)
    (pref : Option Preferences) (records : List MealRecord) (today : Int)
    (historySummary : String) (st : AgentState) : RecResult :=
  getRecommendationCore mealType weather search cfg pref records today
    historySummary (Reset st)

/-- `Scheduler.ManualTrigger`: derive the occasion from the hour, then
trigger. -/
def manualTrigger (hour : Nat) (weather : Except String WeatherInfo)
    (search : Except String (List Restaurant)) (cfg : Config)
    (pref : Option Preferences) (records : List MealRecord) (today : Int)
    (historySummary : String) (st : AgentState) : RecResult :=
  triggerRecommendation (occasionForHour hour) weather search cfg pref records
    today historySummary st

def restA4 : Restaurant := ⟨"甲小馆", "餐饮服务;中餐厅;川菜", "", "", "", "", "", 120⟩

def restB4 : Restaurant := ⟨"乙小馆", "餐饮服务;中餐厅;粤菜", "", "", "", "", "", 110⟩

/-! ## Theorems -/

theorem alGet?_alSet_same (m : List (String × Int)) (n : String) (v : Int) :
    alGet? (alSet m n v) n = some v := by
  induction m with
  | nil => simp [alSet, alGet?]
  | cons kv rest ih =>
    obtain ⟨k, w⟩ := kv
    by_cases h : k = n
    · simp [alSet, alGet?, h]
    · simp [alSet, alGet?, h, ih]

theorem alGet?_alSet_other (m : List (String × Int)) (n n' : String) (v : Int)
    (h : n ≠ n') : alGet? (alSet m n v) n' = alGet? m n' := by
  induction m with
  | nil => simp [alSet, alGet?, h]
  | cons kv rest ih =>
    obtain ⟨k, w⟩ := kv
    by_cases hk : k = n
    · subst hk
      simp [alSet, alGet?, h]
    · simp [alSet, alGet?, hk, ih]

example : GetRestaurantWeight ⟨[("海底捞", 150)], []⟩ "海底捞" = 150 := by decide
example : GetRestaurantWeight ⟨[("海底捞", 150)], []⟩ "别家" = 100 := by decide
example : GetCategoryWeight ⟨[], [("川菜", 120)]⟩ "餐饮服务;中餐厅;川菜" = 120 := by decide

theorem penaltyFor_nonpos (d : Int) : penaltyFor d ≤ 0 := by
  unfold penaltyFor
  repeat' split
  all_goals omega

theorem penaltyFor_neg_eq_zero (d : Int) (h : d < 0) : penaltyFor d = 0 := by
  unfold penaltyFor
  repeat' split
  all_goals omega

theorem minFold_some (a : Int) (l : List Int) :
    minFold (some a) l = some (l.foldl min a) := by
  induction l generalizing a with
  | nil => rfl
  | cons x xs ih => simpa [minFold, List.foldl] using ih (min a x)

/-- One record's effect on the map entry of `name` is one `min` step over
that record's contribution. -/
theorem penaltyStep_get (today : Int) (pens : List (String × Int))
    (r : MealRecord) (name : String) :
    alGet? (penaltyStep today pens r) name =
      match contrib today name r with
      | none => alGet? pens name
      | some p =>
        match alGet? pens name with
        | none => some p
        | some e => some (min e p) := by
  unfold penaltyStep contrib
  cases hd : r.date with
  | none => rfl
  | some d =>
    dsimp only
    by_cases hskip : today - d > 3
    · have hno : ¬ (r.restaurant = name ∧ today - d ≤ 3) := by
        rintro ⟨_, h⟩; omega
      rw [if_pos hskip, if_neg hno]
    · rw [if_neg hskip]
      by_cases hname : r.restaurant = name
      · subst hname
        rw [if_pos ⟨rfl, by omega⟩]
        cases hget : alGet? pens r.restaurant with
        | none => rw [alGet?_alSet_same]
        | some existing =>
          dsimp only
          by_cases hlt : penaltyFor (today - d) < existing
          · rw [if_pos hlt, alGet?_alSet_same,
              min_eq_right (le_of_lt hlt)]
          · rw [if_neg hlt, hget,
              min_eq_left (by omega : existing ≤ penaltyFor (today - d))]
      · have hno : ¬ (r.restaurant = name ∧ today - d ≤ 3) := by
          rintro ⟨h, _⟩; exact hname h
        rw [if_neg hno]
        cases hget : alGet? pens r.restaurant with
        | none => rw [alGet?_alSet_other _ _ _ _ hname]
        | some existing =>
          dsimp only
          by_cases hlt : penaltyFor (today - d) < existing
          · rw [if_pos hlt, alGet?_alSet_other _ _ _ _ hname]
          · rw [if_neg hlt]

/-- Fold invariant: after processing `records` from accumulator `pens`, the
entry of `name` is the `min`-fold of `name`'s contributions over the previous
entry. -/
theorem foldl_penaltyStep_get (today : Int) (records : List MealRecord)
    (pens : List (String × Int)) (name : String) :
    alGet? (records.foldl (penaltyStep today) pens) name =
      minFold (alGet? pens name) (codeContribs records today name) := by
  induction records generalizing pens with
  | nil => rfl
  | cons r rs ih =>
    rw [List.foldl_cons, ih]
    unfold codeContribs
    rw [List.filterMap_cons]
    cases hc : contrib today name r with
    | none =>
      have := penaltyStep_get today pens r name
      rw [hc] at this
      rw [this]
    | some p =>
      have := penaltyStep_get today pens r name
      rw [hc] at this
      rw [this]
      cases alGet? pens name <;> rfl

theorem codeContribs_nonpos (records : List MealRecord) (today : Int)
    (name : String) : ∀ x ∈ codeContribs records today name, x ≤ 0 := by
  intro x hx
  unfold codeContribs at hx
  rw [List.mem_filterMap] at hx
  obtain ⟨r, _, hr⟩ := hx
  unfold contrib at hr
  split at hr
  · exact absurd hr (by simp)
  · split at hr
    · cases hr
      exact penaltyFor_nonpos _
    · exact absurd hr (by simp)

theorem foldl_min_le_init (l : List Int) (a : Int) : l.foldl min a ≤ a := by
  induction l generalizing a with
  | nil => exact le_refl a
  | cons x xs ih => exact le_trans (ih (min a x)) (min_le_left a x)

/-- Dropping the future-dated contributions (which are all 0) from a `min`
fold that starts at a non-positive value changes nothing. -/
theorem foldl_min_code_eq_spec (records : List MealRecord) (today : Int)
    (name : String) :
    ∀ a : Int, a ≤ 0 →
      (codeContribs records today name).foldl min a =
        (records.filterMap (fun r =>
          match r.date with
          | none => none
          | some d =>
            if r.restaurant = name ∧ 0 ≤ today - d ∧ today - d ≤ 3 then
              some (penaltyFor (today - d))
            else none)).foldl min a := by
  induction records with
  | nil => intro a _; rfl
  | cons r rs ih =>
    intro a ha
    unfold codeContribs at ih ⊢
    rw [List.filterMap_cons, List.filterMap_cons]
    cases hd : r.date with
    | none =>
      dsimp only [contrib]
      rw [hd]
      dsimp only
      exact ih a ha
    | some d =>
      dsimp only [contrib]
      rw [hd]
      dsimp only
      by_cases hname : r.restaurant = name
      · by_cases hwin : 0 ≤ today - d ∧ today - d ≤ 3
        · rw [if_pos ⟨hname, hwin.2⟩, if_pos ⟨hname, hwin⟩]
          rw [List.foldl_cons, List.foldl_cons]
          exact ih _ (le_trans (min_le_left _ _) ha)
        · by_cases hle : today - d ≤ 3
          · -- future-dated record: contributes 0 on the code side only
            have hneg : today - d < 0 := by omega
            rw [if_pos ⟨hname, hle⟩,
              if_neg (by rintro ⟨_, h0, _⟩; omega :
                ¬ (r.restaurant = name ∧ 0 ≤ today - d ∧ today - d ≤ 3))]
            rw [List.foldl_cons, penaltyFor_neg_eq_zero _ hneg,
              min_eq_left ha]
            exact ih a ha
          · rw [if_neg (by rintro ⟨_, h⟩; omega :
                ¬ (r.restaurant = name ∧ today - d ≤ 3)),
              if_neg (by rintro ⟨_, _, h⟩; omega :
                ¬ (r.restaurant = name ∧ 0 ≤ today - d ∧ today - d ≤ 3))]
            exact ih a ha
      · rw [if_neg (by rintro ⟨h, _⟩; exact hname h :
            ¬ (r.restaurant = name ∧ today - d ≤ 3)),
          if_neg (by rintro ⟨h, _⟩; exact hname h :
            ¬ (r.restaurant = name ∧ 0 ≤ today - d ∧ today - d ≤ 3))]
        exact ih a ha

/-- The effective penalty `GetRecommendation` reads from the table equals the
`min`-with-0 fold over the code's qualifying contributions. -/
theorem effectivePenalty_eq_foldl (records : List MealRecord) (today : Int)
    (name : String) :
    effectivePenalty (GetAllPenalties records today) name =
      (codeContribs records today name).foldl min 0 := by
  unfold effectivePenalty GetAllPenalties
  rw [foldl_penaltyStep_get]
  cases hc : codeContribs records today name with
  | nil => rfl
  | cons x xs =>
    have hx : x ≤ 0 := codeContribs_nonpos records today name x
      (by rw [hc]; exact List.mem_cons_self x xs)
    have h1 : minFold (alGet? ([] : List (String × Int)) name) (x :: xs) =
        some (xs.foldl min x) := minFold_some x xs
    rw [h1]
    show xs.foldl min x = List.foldl min 0 (x :: xs)
    rw [List.foldl_cons, min_eq_right hx]

theorem effectivePenalty_nonpos (records : List MealRecord) (today : Int)
    (name : String) :
    effectivePenalty (GetAllPenalties records today) name ≤ 0 := by
  rw [effectivePenalty_eq_foldl]
  exact foldl_min_le_init _ 0

/-- C5: the derived penalty table maps every restaurant to the most negative
penalty among its records dated within the trailing 3 days (a record `d` days
old contributing −80, −50, −30, −15 for `d = 0, 1, 2, 3`; older records
contribute nothing), and to 0 when no record falls in that window.  Stated as:
the effective penalty `GetRecommendation` reads from `GetAllPenalties` equals
the spec's formula. -/
theorem getAllPenalties_matches_spec (records : List MealRecord) (today : Int)
    (name : String) :
    effectivePenalty (GetAllPenalties records today) name =
      specRecencyPenalty records today name := by
  rw [effectivePenalty_eq_foldl]
  unfold specRecencyPenalty
  exact foldl_min_code_eq_spec records today name 0 (le_refl 0)

example :
    computeWeight (some ⟨[("A", 150)], []⟩) [] ⟨"A", "餐饮服务;火锅", "", "", "", "", "", 0⟩
      = 150 := by decide

example :  -- spec §8 scenario: eaten today, no preference → 100 − 80 = 20
    computeWeight (some ⟨[], []⟩) [("A", -80)] ⟨"A", "", "", "", "", "", "", 0⟩
      = 20 := by decide

theorem computeWeight_penalty_split (pref : Option Preferences)
    (penalties : List (String × Int)) (r : Restaurant) :
    computeWeight pref penalties r =
      computeWeight pref [] r + effectivePenalty penalties r.name := by
  unfold computeWeight effectivePenalty
  cases alGet? penalties r.name with
  | none => simp [alGet?]
  | some p => simp [alGet?]

theorem sortPass_length (h : Restaurant) (l : List Restaurant) :
    (sortPass h l).2.length = l.length := by
  induction l generalizing h with
  | nil => rfl
  | cons y ys ih =>
    unfold sortPass
    by_cases hw : h.weight < y.weight
    · rw [if_pos hw]; simp [ih]
    · rw [if_neg hw]; simp [ih]

theorem sortPass_perm (h : Restaurant) (l : List Restaurant) :
    ((sortPass h l).1 :: (sortPass h l).2).Perm (h :: l) := by
  induction l generalizing h with
  | nil => exact List.Perm.refl _
  | cons y ys ih =>
    unfold sortPass
    by_cases hw : h.weight < y.weight
    · rw [if_pos hw]
      dsimp only
      exact (List.Perm.swap h (sortPass y ys).1 (sortPass y ys).2).trans
        ((ih y).cons h)
    · rw [if_neg hw]
      dsimp only
      exact ((List.Perm.swap y (sortPass h ys).1 (sortPass h ys).2).trans
        ((ih h).cons y)).trans (List.Perm.swap h y ys)

theorem sortPass_max (h : Restaurant) (l : List Restaurant) :
    h.weight ≤ (sortPass h l).1.weight ∧
      ∀ r ∈ (sortPass h l).2, r.weight ≤ (sortPass h l).1.weight := by
  induction l generalizing h with
  | nil => exact ⟨le_refl _, by intro r hr; cases hr⟩
  | cons y ys ih =>
    unfold sortPass
    by_cases hw : h.weight < y.weight
    · rw [if_pos hw]
      dsimp only
      obtain ⟨h1, h2⟩ := ih y
      refine ⟨le_trans (le_of_lt hw) h1, ?_⟩
      intro r hr
      rcases List.mem_cons.mp hr with rfl | hr
      · exact le_trans (le_of_lt hw) h1
      · exact h2 r hr
    · rw [if_neg hw]
      dsimp only
      obtain ⟨h1, h2⟩ := ih h
      refine ⟨h1, ?_⟩
      intro r hr
      rcases List.mem_cons.mp hr with rfl | hr
      · exact le_trans (le_of_not_lt hw) h1
      · exact h2 r hr

theorem sortAux_perm :
    ∀ (n : Nat) (l : List Restaurant), l.length ≤ n → (sortAux n l).Perm l := by
  intro n
  induction n with
  | zero =>
    intro l hl
    rw [List.length_eq_zero.mp (Nat.le_zero.mp hl)]
    exact List.Perm.refl _
  | succ n ih =>
    intro l hl
    cases l with
    | nil => exact List.Perm.refl _
    | cons x xs =>
      show ((sortPass x xs).1 :: sortAux n (sortPass x xs).2).Perm (x :: xs)
      have hlen : (sortPass x xs).2.length ≤ n := by
        rw [sortPass_length]
        exact Nat.le_of_succ_le_succ hl
      exact (List.Perm.cons _ (ih _ hlen)).trans (sortPass_perm x xs)

theorem sortAux_sorted :
    ∀ (n : Nat) (l : List Restaurant), l.length ≤ n →
      (sortAux n l).Pairwise (fun a b => b.weight ≤ a.weight) := by
  intro n
  induction n with
  | zero => intro l _; rw [show sortAux 0 l = [] from rfl]; exact List.Pairwise.nil
  | succ n ih =>
    intro l hl
    cases l with
    | nil => exact List.Pairwise.nil
    | cons x xs =>
      show ((sortPass x xs).1 :: sortAux n (sortPass x xs).2).Pairwise _
      have hlen : (sortPass x xs).2.length ≤ n := by
        rw [sortPass_length]
        exact Nat.le_of_succ_le_succ hl
      refine List.pairwise_cons.mpr ⟨?_, ih _ hlen⟩
      intro b hb
      have hbmem : b ∈ (sortPass x xs).2 :=
        (sortAux_perm n _ hlen).mem_iff.mp hb
      exact (sortPass_max x xs).2 b hbmem

/-- C3 (amended part): `SortByWeight` produces a permutation of its input that
is sorted by non-increasing weight. -/
theorem sortByWeight_perm_sorted (l : List Restaurant) :
    (SortByWeight l).Perm l ∧
      (SortByWeight l).Pairwise (fun a b => b.weight ≤ a.weight) :=
  ⟨sortAux_perm l.length l (le_refl _), sortAux_sorted l.length l (le_refl _)⟩

/-- C3 counterexample: on `[甲(5), 乙(5), 丙(9)]` the exchange sort swaps 甲
to the back past its equal-weight peer 乙, producing `[丙, 乙, 甲]` instead of
the stable `[丙, 甲, 乙]` — ties do **not** retain input order. -/
theorem sortByWeight_not_stable :
    SortByWeight [exA3, exB3, exC3] = [exC3, exB3, exA3] ∧
    exA3.weight = exB3.weight ∧
    stableSortByWeight [exA3, exB3, exC3] = [exC3, exA3, exB3] ∧
    SortByWeight [exA3, exB3, exC3] ≠ stableSortByWeight [exA3, exB3, exC3] := by
  decide

/-- C1: for a candidate whose name has no preference entry or a nonzero one,
the computed weight is the name-exact preference weight (else 100), scaled by
`* catWeight / 100` in truncating integer division exactly when the category
lookup is not the neutral 100, with the (non-positive) recency penalty added
last. -/
theorem weight_formula_nonzero_pref (p : Preferences) (records : List MealRecord)
    (today : Int) (r : Restaurant)
    (h : alGet? p.restaurantMap r.name ≠ some 0) :
    computeWeight (some p) (GetAllPenalties records today) r =
      (if GetCategoryWeight p r.rtype ≠ 100
       then Int.tdiv (GetRestaurantWeight p r.name * GetCategoryWeight p r.rtype) 100
       else GetRestaurantWeight p r.name)
      + effectivePenalty (GetAllPenalties records today) r.name
    ∧ effectivePenalty (GetAllPenalties records today) r.name ≤ 0 := by
  have hw : GetRestaurantWeight p r.name ≠ 0 := by
    unfold GetRestaurantWeight
    cases hg : alGet? p.restaurantMap r.name with
    | none => norm_num
    | some w =>
      dsimp only
      intro h0
      rw [h0] at hg
      exact h hg
  refine ⟨?_, effectivePenalty_nonpos records today r.name⟩
  rw [computeWeight_penalty_split]
  congr 1
  unfold computeWeight
  dsimp only [alGet?]
  rw [if_neg hw]

/-- Witness for C1 at a concrete input: preference 150, category weight 120,
eaten yesterday (penalty −50); hypotheses discharged by evaluation. -/
theorem weight_formula_nonzero_pref_witness :
    alGet? prefC1.restaurantMap restC1.name ≠ some 0 ∧
    (computeWeight (some prefC1) (GetAllPenalties recordsC1 50) restC1 =
      (if GetCategoryWeight prefC1 restC1.rtype ≠ 100
       then Int.tdiv (GetRestaurantWeight prefC1 restC1.name * GetCategoryWeight prefC1 restC1.rtype) 100
       else GetRestaurantWeight prefC1 restC1.name)
      + effectivePenalty (GetAllPenalties recordsC1 50) restC1.name
    ∧ effectivePenalty (GetAllPenalties recordsC1 50) restC1.name ≤ 0) :=
  ⟨by decide, weight_formula_nonzero_pref prefC1 recordsC1 50 restC1 (by decide)⟩

/-- C2 counterexample: a candidate with name-exact preference weight 0 that
was eaten today ends up with final weight −80, not 0 — the recency penalty is
added *after* the zero is forced, so the claim's "exactly 0 regardless of any
recency penalty" is false. -/
theorem zeroPref_weight_not_exactly_zero :
    computeWeight (some prefC2) (GetAllPenalties recordsC2 100) restC2 = -80 ∧
    ((-80 : Int) ≠ 0) := by
  decide

/-- C2 (amended): with a name-exact preference weight of 0, the weight after
preference and category adjustment is 0, so the final weight equals the
recency penalty for that name (0 when none) — hence it is always ≤ 0 and the
candidate is still pruned by the weight filter. -/
theorem zeroPref_weight_eq_penalty (p : Preferences) (records : List MealRecord)
    (today : Int) (r : Restaurant)
    (h : alGet? p.restaurantMap r.name = some 0) :
    computeWeight (some p) (GetAllPenalties records today) r =
      effectivePenalty (GetAllPenalties records today) r.name
    ∧ computeWeight (some p) (GetAllPenalties records today) r ≤ 0
    ∧ FilterByWeight
        [{ r with weight := computeWeight (some p) (GetAllPenalties records today) r }] = [] := by
  have hw : GetRestaurantWeight p r.name = 0 := by
    unfold GetRestaurantWeight
    rw [h]
  have hzero : computeWeight (some p) ([] : List (String × Int)) r = 0 := by
    unfold computeWeight
    dsimp only [alGet?]
    rw [if_pos hw]
    by_cases hc : GetCategoryWeight p r.rtype ≠ 100
    · rw [if_pos hc, zero_mul, Int.zero_tdiv]
    · rw [if_neg hc]
  have heq : computeWeight (some p) (GetAllPenalties records today) r =
      effectivePenalty (GetAllPenalties records today) r.name := by
    rw [computeWeight_penalty_split, hzero, zero_add]
  have hle : computeWeight (some p) (GetAllPenalties records today) r ≤ 0 := by
    rw [heq]
    exact effectivePenalty_nonpos records today r.name
  refine ⟨heq, hle, ?_⟩
  unfold FilterByWeight
  rw [List.filter_cons]
  simp only [decide_eq_true_eq]
  rw [if_neg (by simp only [not_lt]; exact hle)]
  rfl

/-- Witness for the amended C2 at the concrete counterexample input. -/
theorem zeroPref_weight_eq_penalty_witness :
    alGet? prefC2.restaurantMap restC2.name = some 0 ∧
    (computeWeight (some prefC2) (GetAllPenalties recordsC2 100) restC2 =
      effectivePenalty (GetAllPenalties recordsC2 100) restC2.name
    ∧ computeWeight (some prefC2) (GetAllPenalties recordsC2 100) restC2 ≤ 0
    ∧ FilterByWeight
        [{ restC2 with weight := computeWeight (some prefC2) (GetAllPenalties recordsC2 100) restC2 }] = []) :=
  ⟨by decide, zeroPref_weight_eq_penalty prefC2 recordsC2 100 restC2 (by decide)⟩

/-- C4 (failing input, code bug): with TWO candidates last offered and the
bare confirmation "好的" — no ordinal phrase, no candidate name — the code's
bare-confirmation branch (guarded only by `len(lastRestaurants) > 0`, against
its own comment "且只有一个推荐") resolves to the FIRST candidate and appends
a meal record, instead of replying with the clarification request and
appending nothing. -/
theorem bareConfirmation_two_candidates_records_first :
    extractSelection "好的" [restA4, restB4] = some restA4 ∧
    (confirmChoice "好的" [restA4, restB4] [] 200 12).2 =
      [⟨some 200, "lunch", "甲小馆", "川菜", 0, ""⟩] ∧
    (confirmChoice "好的" [restA4, restB4] [] 200 12).1 ≠
      "请告诉我你选择哪个餐厅，可以说餐厅名称或者「第一个」「第二个」等" := by
  decide

/-- C6 counterexample: a turn that contains both an exclusion keyword
("不想吃") and a recommendation-request keyword ("有什么") records the
exclusion *and* dispatches to the recommendation pipeline in the same turn. -/
theorem exclusionTurn_can_recommend_same_turn :
    hasExclusionIntent "不想吃火锅，有什么" = true ∧
    (chatDispatch "不想吃火锅，有什么" []).2 = ChatAction.recommend ∧
    (chatDispatch "不想吃火锅，有什么" []).1 = ["火锅"] := by
  decide

theorem parseExclusion_foldl_mem (input : String) :
    ∀ (ks : List String) (te : List String) (kw : String),
      (kw ∈ ks.foldl
          (fun te k => if strContains input k && !(te.contains k) then te ++ [k] else te)
          te) ↔
        kw ∈ te ∨ (kw ∈ ks ∧ strContains input kw = true) := by
  intro ks
  induction ks with
  | nil =>
    intro te kw
    simp
  | cons k rest ih =>
    intro te kw
    rw [List.foldl_cons, ih]
    by_cases hcond : (strContains input k && !(te.contains k)) = true
    · rw [if_pos hcond]
      have hm : strContains input k = true := by
        cases hmm : strContains input k
        · rw [hmm] at hcond
          simp at hcond
        · rfl
      constructor
      · rintro (h1 | h2)
        · rcases List.mem_append.mp h1 with h1 | h1
          · exact Or.inl h1
          · rcases List.mem_singleton.mp h1 with rfl
            exact Or.inr ⟨List.mem_cons_self _ rest, hm⟩
        · exact Or.inr ⟨List.mem_cons_of_mem k h2.1, h2.2⟩
      · rintro (h1 | ⟨hk, hc⟩)
        · exact Or.inl (List.mem_append_left _ h1)
        · rcases List.mem_cons.mp hk with rfl | hk
          · exact Or.inl (List.mem_append_right _ (List.mem_singleton.mpr rfl))
          · exact Or.inr ⟨hk, hc⟩
    · rw [if_neg hcond]
      have hsplit : strContains input k = false ∨ te.contains k = true := by
        cases hmm : strContains input k
        · exact Or.inl rfl
        · cases hc2 : te.contains k
          · exact absurd (by rw [hmm, hc2]; rfl) hcond
          · exact Or.inr rfl
      constructor
      · rintro (h1 | h2)
        · exact Or.inl h1
        · exact Or.inr ⟨List.mem_cons_of_mem k h2.1, h2.2⟩
      · rintro (h1 | ⟨hk, hc⟩)
        · exact Or.inl h1
        · rcases List.mem_cons.mp hk with rfl | hk
          · rcases hsplit with hf | htr
            · rw [hc] at hf
              cases hf
            · exact Or.inl (List.mem_of_elem_eq_true htr)
          · exact Or.inr ⟨hk, hc⟩

theorem parseExclusion_mem (input : String) (te : List String) (kw : String) :
    kw ∈ parseExclusion input te ↔
      kw ∈ te ∨ (kw ∈ foodKeywords ∧ strContains input kw = true) :=
  parseExclusion_foldl_mem input foodKeywords te kw

/-- C6 (amended): on a turn with an exclusion-intent keyword, `Chat` updates
the temporary-exclusion set exactly by `parseExclusion` — afterwards a keyword
is excluded iff it already was or it is a matched vocabulary keyword — but the
turn still dispatches to the recommendation pipeline whenever it also contains
a recommendation-request keyword and no confirmation keyword; a recommendation
is *not* limited to a later explicit re-request. -/
theorem exclusionTurn_dispatch (input : String) (te : List String)
    (h : hasExclusionIntent input = true) :
    (chatDispatch input te).1 = parseExclusion input te
    ∧ (∀ kw, kw ∈ (chatDispatch input te).1 ↔
        kw ∈ te ∨ (kw ∈ foodKeywords ∧ strContains input kw = true))
    ∧ ((chatDispatch input te).2 = ChatAction.recommend ↔
        (isConfirmation input = false ∧ isRecommendRequest input = true)) := by
  have h1 : (chatDispatch input te).1 = parseExclusion input te := by
    unfold chatDispatch
    by_cases hc : isConfirmation input <;> by_cases hr : isRecommendRequest input <;>
      simp [h, hc, hr]
  refine ⟨h1, ?_, ?_⟩
  · intro kw
    rw [h1]
    exact parseExclusion_mem input te kw
  · unfold chatDispatch
    by_cases hc : isConfirmation input <;> by_cases hr : isRecommendRequest input <;>
      simp [h, hc, hr]

/-- Witness for the amended C6 at the turn "不想吃火锅" over an empty
session-exclusion set. -/
theorem exclusionTurn_dispatch_witness :
    hasExclusionIntent "不想吃火锅" = true ∧
    ((chatDispatch "不想吃火锅" []).1 = parseExclusion "不想吃火锅" []
    ∧ (∀ kw, kw ∈ (chatDispatch "不想吃火锅" []).1 ↔
        kw ∈ ([] : List String) ∨ (kw ∈ foodKeywords ∧ strContains "不想吃火锅" kw = true))
    ∧ ((chatDispatch "不想吃火锅" []).2 = ChatAction.recommend ↔
        (isConfirmation "不想吃火锅" = false ∧ isRecommendRequest "不想吃火锅" = true))) :=
  ⟨by decide, exclusionTurn_dispatch "不想吃火锅" [] (by decide)⟩

/-- C7: when the ranked candidate list comes out empty, `GetRecommendation`
returns the fixed no-candidate message with a nil error; the result is the
`fixedMsg` outcome carrying the *unchanged* input state — the language model
is never reached and no message is appended. -/
theorem emptyRanking_fixed_message (mealType : String)
    (weather : Except String WeatherInfo) (found : List Restaurant)
    (cfg : Config) (pref : Option Preferences) (records : List MealRecord)
    (today : Int) (historySummary : String) (st : AgentState)
    (h : rankedCandidates found cfg pref records today st.tempExclude = []) :
    getRecommendationCore mealType weather (Except.ok found) cfg pref records
        today historySummary st =
      RecResult.fixedMsg st "附近没有找到合适的餐厅，考虑扩大搜索范围或减少排除条件" := by
  unfold getRecommendationCore
  dsimp only
  rw [h]
  rfl

/-- Witness for C7: an empty places result with a non-empty prior message
list; the state comes back untouched. -/
theorem emptyRanking_fixed_message_witness :
    rankedCandidates [] ⟨[], []⟩ none [] 0
        (AgentState.mk [⟨"assistant", "之前的回复"⟩] [] []).tempExclude = [] ∧
    getRecommendationCore "lunch" (Except.ok placeholderWeather) (Except.ok [])
        ⟨[], []⟩ none [] 0 "" (AgentState.mk [⟨"assistant", "之前的回复"⟩] [] []) =
      RecResult.fixedMsg (AgentState.mk [⟨"assistant", "之前的回复"⟩] [] [])
        "附近没有找到合适的餐厅，考虑扩大搜索范围或减少排除条件" :=
  ⟨by decide,
    emptyRanking_fixed_message "lunch" (Except.ok placeholderWeather) []
      ⟨[], []⟩ none [] 0 "" (AgentState.mk [⟨"assistant", "之前的回复"⟩] [] [])
      (by decide)⟩

/-- C8: a weather-provider failure never aborts — the call behaves exactly as
if the fixed neutral placeholder reading had been fetched — while a
places-search failure aborts the whole call with the descriptive error, the
state untouched and no recommendation produced. -/
theorem provider_failure_handling (mealType : String)
    (search : Except String (List Restaurant)) (cfg : Config)
    (pref : Option Preferences) (records : List MealRecord) (today : Int)
    (historySummary : String) (st : AgentState) :
    (∀ e : String,
      getRecommendationCore mealType (Except.error e) search cfg pref records
          today historySummary st =
        getRecommendationCore mealType (Except.ok placeholderWeather) search cfg
          pref records today historySummary st)
    ∧ (∀ (weather : Except String WeatherInfo) (e : String),
        getRecommendationCore mealType weather (Except.error e) cfg pref records
            today historySummary st =
          RecResult.abort st ("搜索餐厅失败: " ++ e)) :=
  ⟨fun _ => rfl, fun _ _ => rfl⟩

/-- C9: `History.Add` appends the (date-normalized) record to the in-memory
list unconditionally, and its returned error is exactly the outcome of
synchronously writing that appended list — so a failed write surfaces an error
while memory already holds the record, and a successful write flushed
precisely the new list before returning. -/
theorem add_appends_and_flushes (records : List MealRecord)
    (record : MealRecord) (today : Int)
    (write : List MealRecord → Except String Unit) :
    (History.Add records record today write).1 =
      records ++
        [if record.date = none then { record with date := some today } else record]
    ∧ (History.Add records record today write).2 =
        write ((History.Add records record today write).1) :=
  ⟨rfl, rfl⟩

/-- C10: every scheduler-triggered recommendation — timed or manual — runs the
pipeline on the fully cleared conversation state (empty message list, empty
temporary-exclusion set, empty last-offered list), so its outcome is
independent of whatever session state existed before. -/
theorem trigger_resets_state (mealType : String) (hour : Nat)
    (weather : Except String WeatherInfo)
    (search : Except String (List Restaurant)) (cfg : Config)
    (pref : Option Preferences) (records : List MealRecord) (today : Int)
    (historySummary : String) (st st' : AgentState) :
    Reset st = AgentState.mk [] [] []
    ∧ triggerRecommendation mealType weather search cfg pref records today
        historySummary st =
      getRecommendationCore mealType weather search cfg pref records today
        historySummary (AgentState.mk [] [] [])
    ∧ triggerRecommendation mealType weather search cfg pref records today
        historySummary st =
      triggerRecommendation mealType weather search cfg pref records today
        historySummary st'
    ∧ manualTrigger hour weather search cfg pref records today historySummary st =
      getRecommendationCore (occasionForHour hour) weather search cfg pref
        records today historySummary (AgentState.mk [] [] []) :=
  ⟨rfl, rfl, rfl, rfl⟩
